import Mathlib

/-!
Verification of the Confero content aggregation layer.

This file gives a shallow embedding of the content model of the Confero
static blog generator and proves properties of its query functions.

Embedded source parts:
* the content-collection schema (src/content/config.ts): frontmatter
  parsing with the zod object schema of blogCollection;
* the content helpers (src/utils/contentHelpers.ts): getAllPosts,
  getPostsBySpace, getPostsByTag, getAllTags, getLatestPosts;
* the breadcrumb helpers (src/utils/breadcrumbs.ts): getSpaceTitle;
* the validation checks of the repository test suite
  (tests/content-validation.test.js): space membership and tag format.
-/

namespace Confero

/-- A frontmatter value as produced by the YAML parser: a string, a number,
a boolean, or an array of values. This is the input type of the zod schema
in src/content/config.ts. -/
inductive FmValue where
  | vStr : String → FmValue
  | vNum : Int → FmValue
  | vBool : Bool → FmValue
  | vArr : List FmValue → FmValue

/-- The raw frontmatter of one MDX post: each of the five keys the schema
reads is either absent (none) or present with some value. -/
structure RawFrontmatter where
  title : Option FmValue
  description : Option FmValue
  date : Option FmValue
  tags : Option FmValue
  space : Option FmValue

/-- A JavaScript Date value. In JavaScript, a Date is always produced by
the Date constructor; an unparseable input yields an Invalid Date. We carry
the numeric time value (getTime) and a validity flag. -/
structure JSDate where
  time : Int
  valid : Bool
deriving DecidableEq

/-- Splits a character list on the hyphen character, the way the string
splitting used for ISO dates and tag patterns behaves: "a-b" gives two
groups, adjacent or leading or trailing hyphens give empty groups. -/
def splitOnDash : List Char → List (List Char)
  | [] => [[]]
  | c :: cs =>
    let r := splitOnDash cs
    if c = '-' then [] :: r
    else
      match r with
      | [] => [[c]]
      | g :: gs => (c :: g) :: gs

/-- Reads a decimal number from a list of digit characters. -/
def digitsToNat (cs : List Char) : Nat :=
  cs.foldl (fun n c => n * 10 + (c.toNat - 48)) 0

/-- Modelled from the spec: the host JavaScript Date construction
(new Date(str)) used by the transform of the schema field date in
src/content/config.ts; the host date parser is not part of this
repository. Construction never throws: an ISO YYYY-MM-DD string yields a
valid date whose time value is monotone in (year, month, day); any other
string yields an Invalid Date value instead of a failure. -/
def jsNewDate (s : String) : JSDate :=
  match splitOnDash s.toList with
  | [y, m, d] =>
    if y.length = 4 ∧ m.length = 2 ∧ d.length = 2
        ∧ y.all Char.isDigit = true ∧ m.all Char.isDigit = true ∧ d.all Char.isDigit = true
        ∧ 1 ≤ digitsToNat m ∧ digitsToNat m ≤ 12 ∧ 1 ≤ digitsToNat d ∧ digitsToNat d ≤ 31 then
      ⟨((digitsToNat y * 10000 + digitsToNat m * 100 + digitsToNat d : Nat) : Int), true⟩
    else ⟨0, false⟩
  | _ => ⟨0, false⟩

/-- The error raised by the schema when a post fails validation at load
time (the ContentLoadError of the specification). -/
inductive ContentLoadError where
  | missingField : String → ContentLoadError
  | wrongType : String → ContentLoadError
deriving DecidableEq

/-- A successfully loaded post, i.e. the data field of a collection entry
after the schema of src/content/config.ts has run. -/
structure PostData where
  title : String
  description : String
  date : JSDate
  tags : List String
  space : String
deriving DecidableEq

/-- z.string(): accepts exactly string values. -/
def asString : FmValue → Option String
  | .vStr s => some s
  | _ => none

/-- Element check of z.array(z.string()): every element of the array must
be a string; the first non-string element fails the whole array. -/
def allStrings : List FmValue → Option (List String)
  | [] => some []
  | v :: vs =>
    match asString v, allStrings vs with
    | some s, some rest => some (s :: rest)
    | _, _ => none

/-- z.array(z.string()): accepts exactly arrays whose elements are all
strings. -/
def asStringList : FmValue → Option (List String)
  | .vArr vs => allStrings vs
  | _ => none

/-- A required z.string() field: absent fails, a non-string value fails. -/
def requireString (name : String) : Option FmValue → Except ContentLoadError String
  | none => .error (.missingField name)
  | some v =>
    match asString v with
    | some s => .ok s
    | none => .error (.wrongType name)

/-- The tags field: z.array(z.string()).default([]). An absent field takes
the default empty list; a present field must be an array of strings. -/
def optionalTags : Option FmValue → Except ContentLoadError (List String)
  | none => .ok []
  | some v =>
    match asStringList v with
    | some l => .ok l
    | none => .error (.wrongType "tags")

/-- The space field: z.string().default of the string blog. An absent
field takes the default; a present field must be a string. -/
def optionalSpace : Option FmValue → Except ContentLoadError String
  | none => .ok "blog"
  | some v =>
    match asString v with
    | some s => .ok s
    | none => .error (.wrongType "space")

/-- The zod object schema of blogCollection in src/content/config.ts:
title, description and date are required strings; date is transformed by
new Date(str); tags defaults to the empty array; space defaults to the
string blog. -/
def blogCollection (fm : RawFrontmatter) : Except ContentLoadError PostData :=
  match requireString "title" fm.title with
  | .error e => .error e
  | .ok title =>
    match requireString "description" fm.description with
    | .error e => .error e
    | .ok description =>
      match requireString "date" fm.date with
      | .error e => .error e
      | .ok dateStr =>
        match optionalTags fm.tags with
        | .error e => .error e
        | .ok tags =>
          match optionalSpace fm.space with
          | .error e => .error e
          | .ok space => .ok ⟨title, description, jsNewDate dateStr, tags, space⟩

/-- Boolean check: the field holds a string value. -/
def isStringField : Option FmValue → Bool
  | some (.vStr _) => true
  | _ => false

/-- Boolean check: the field is absent or holds an array of strings. -/
def isOptStringListField : Option FmValue → Bool
  | none => true
  | some v => (asStringList v).isSome

/-- Boolean check: the field is absent or holds a string. -/
def isOptStringField : Option FmValue → Bool
  | none => true
  | some v => (asString v).isSome

/-- The error thrown by getCollection when a content group cannot be
loaded; getAllPosts catches it (the comment in src/utils/contentHelpers.ts
reads: collection might not exist yet). -/
inductive CollectionError where
  | missing : CollectionError
deriving DecidableEq

/-- The accumulation loop of getAllPosts in src/utils/contentHelpers.ts:
for each content group, the posts of a successfully loaded group are
pushed onto allPosts, and a group whose load throws is skipped by the
try/catch. -/
def collectPosts : List (Except CollectionError (List PostData)) → List PostData
  | [] => []
  | .ok ps :: rest => ps ++ collectPosts rest
  | .error _ :: rest => collectPosts rest

/-- The placement relation induced by the sort comparator of getAllPosts,
(a, b) => b.date.getTime() - a.date.getTime(), under the ECMAScript
SortCompare rule that a NaN comparator result counts as +0 (a tie): a may
stay before b when the comparator value is at most 0. When both dates are
valid this means the time of b is at most the time of a (newest first);
when either date is Invalid, getTime() is NaN, the difference is NaN, and
the pair compares as a tie, so the relation holds vacuously. -/
def sortLe (a b : PostData) : Prop :=
  a.date.valid = true → b.date.valid = true → b.date.time ≤ a.date.time

instance : DecidableRel sortLe :=
  fun a b =>
    inferInstanceAs (Decidable (a.date.valid = true → b.date.valid = true
      → b.date.time ≤ a.date.time))

/-- The comparator ordering by time value alone: a total order that agrees
with sortLe on every pair of posts whose dates are valid. It is only a
reasoning device for corpora with no Invalid Date; it is not the
comparator itself, which ties on NaN. -/
def timeDesc (a b : PostData) : Prop := b.date.time ≤ a.date.time

instance : DecidableRel timeDesc :=
  fun a b => inferInstanceAs (Decidable (b.date.time ≤ a.date.time))

instance : IsTotal PostData timeDesc :=
  ⟨fun a b => le_total b.date.time a.date.time⟩

instance : IsTrans PostData timeDesc :=
  ⟨fun _ _ _ hab hbc => le_trans hbc hab⟩

/-- The JavaScript comparison a.date >= b.date of the claims: true exactly
when both dates are valid and the time of a is at least the time of b; any
comparison against an Invalid Date (NaN) is false. -/
def dateGe (a b : PostData) : Prop :=
  a.date.valid = true ∧ b.date.valid = true ∧ b.date.time ≤ a.date.time

instance : DecidableRel dateGe :=
  fun a b =>
    inferInstanceAs (Decidable (a.date.valid = true ∧ b.date.valid = true
      ∧ b.date.time ≤ a.date.time))

/-- getAllPosts of src/utils/contentHelpers.ts: loads every content group
(one Except per group, in the order of the collections array), pushes the
posts of the groups that load, skips the ones that throw, and sorts the
result with the date comparator. The JavaScript comparison sort is
modelled as a comparison sort driven by the SortCompare relation sortLe;
when the corpus holds an Invalid Date the comparator is inconsistent and
ECMAScript leaves the order implementation-defined, so no property beyond
being a permutation should be read off the sorted result there. -/
def getAllPosts (groups : List (Except CollectionError (List PostData))) : List PostData :=
  List.insertionSort sortLe (collectPosts groups)

/-- getPostsBySpace of src/utils/contentHelpers.ts, abstracted over the
post list it filters (the source applies it to the result of
getAllPosts): posts.filter(post => post.data.space === space). -/
def getPostsBySpace (posts : List PostData) (space : String) : List PostData :=
  posts.filter (fun p => p.space == space)

/-- getPostsByTag of src/utils/contentHelpers.ts, abstracted over the post
list it filters: posts.filter(post => post.data.tags.includes(tag)). -/
def getPostsByTag (posts : List PostData) (tag : String) : List PostData :=
  posts.filter (fun p => p.tags.contains tag)

/-- One step of the Set insertion of getAllTags: a JavaScript Set keeps
insertion order and adds an element only if it is not yet present. -/
def addTag (acc : List String) (t : String) : List String :=
  if t ∈ acc then acc else acc ++ [t]

/-- The collection loop of getAllTags: every tag of every post is added to
the set, in post order then tag order. -/
def collectTagList (posts : List PostData) : List String :=
  posts.foldl (fun acc p => p.tags.foldl addTag acc) []

/-- Lexicographic comparison of character lists by code point: the order
the default JavaScript string sort uses. -/
def lexLe : List Char → List Char → Bool
  | [], _ => true
  | _ :: _, [] => false
  | a :: as, b :: bs =>
    if a < b then true
    else if b < a then false
    else lexLe as bs

/-- The ordering of the final sort call of getAllTags: the default
JavaScript string sort, lexicographic ascending on the characters. -/
def strAsc (a b : String) : Prop := lexLe a.toList b.toList = true

instance : DecidableRel strAsc :=
  fun a b => inferInstanceAs (Decidable (lexLe a.toList b.toList = true))

instance : IsTotal String strAsc := by
  constructor
  suffices h : ∀ as bs : List Char, lexLe as bs = true ∨ lexLe bs as = true by
    intro a b
    exact h a.toList b.toList
  intro as
  induction as with
  | nil => exact fun _ => Or.inl rfl
  | cons a as ih =>
    intro bs
    cases bs with
    | nil => exact Or.inr rfl
    | cons b bs =>
      rcases lt_trichotomy a b with h | h | h
      · exact Or.inl (by simp [lexLe, h])
      · subst h
        rcases ih bs with h2 | h2
        · exact Or.inl (by simp [lexLe, lt_irrefl, h2])
        · exact Or.inr (by simp [lexLe, lt_irrefl, h2])
      · exact Or.inr (by simp [lexLe, h])

instance : IsTrans String strAsc := by
  constructor
  suffices h : ∀ as bs cs : List Char,
      lexLe as bs = true → lexLe bs cs = true → lexLe as cs = true by
    intro a b c h1 h2
    exact h a.toList b.toList c.toList h1 h2
  intro as
  induction as with
  | nil => intro bs cs _ _; rfl
  | cons a as ih =>
    intro bs cs h1 h2
    cases bs with
    | nil => simp [lexLe] at h1
    | cons b bs =>
      cases cs with
      | nil => simp [lexLe] at h2
      | cons c cs =>
        by_cases hbc : b < c
        · by_cases hab : a < b
          · have hac : a < c := lt_trans hab hbc
            simp [lexLe, hac]
          · by_cases hba : b < a
            · simp [lexLe, hab, hba] at h1
            · have heq : a = b := le_antisymm (not_lt.mp hba) (not_lt.mp hab)
              subst heq
              simp [lexLe, hbc]
        · by_cases hcb : c < b
          · simp [lexLe, hbc, hcb] at h2
          · have heq : b = c := le_antisymm (not_lt.mp hcb) (not_lt.mp hbc)
            subst heq
            simp [lexLe, lt_irrefl] at h2
            by_cases hab : a < b
            · simp [lexLe, hab]
            · by_cases hba : b < a
              · simp [lexLe, hab, hba] at h1
              · have heq2 : a = b := le_antisymm (not_lt.mp hba) (not_lt.mp hab)
                subst heq2
                simp [lexLe, lt_irrefl] at h1 ⊢
                exact ih bs cs h1 h2

/-- getAllTags of src/utils/contentHelpers.ts, abstracted over the post
list: collects the distinct tags into a Set and returns them sorted with
the default string sort. -/
def getAllTags (posts : List PostData) : List String :=
  List.insertionSort strAsc (collectTagList posts)

/-- getLatestPosts of src/utils/contentHelpers.ts, abstracted over the
post list: posts.slice(0, limit). -/
def getLatestPosts (posts : List PostData) (limit : Nat) : List PostData :=
  posts.take limit

/-- getLatestPosts with its default argument limit = 5. -/
def getLatestPostsDefault (posts : List PostData) : List PostData :=
  getLatestPosts posts 5

/-- The titles record of getSpaceTitle in the breadcrumb helper source. -/
def spaceTitles : List (String × String) :=
  [("ml", "Machine Learning"), ("transformers", "Transformers"),
   ("web", "Web Development"), ("notes", "General Notes"), ("blog", "Blog")]

/-- getSpaceTitle of the breadcrumb helper source: looks the id up in the
titles record and falls back to the id itself when it is not a key. -/
def getSpaceTitle (spaceId : String) : String :=
  ((spaceTitles.lookup spaceId).getD spaceId)

/-- The five content group names of the collections array in
src/utils/contentHelpers.ts; per the specification these are also the ids
of the Space Catalog (src/spaces.json, read by the test suite). -/
def validSpaceIds : List String :=
  ["blog", "ml", "transformers", "web", "notes"]

/-- The space membership check of the repository test suite
(tests/content-validation.test.js, section 1.2): every post must have a
space that is one of the catalog ids. -/
def spacesTestCheck (posts : List PostData) : Bool :=
  posts.all (fun p => validSpaceIds.contains p.space)

/-- A character allowed in a tag by the test suite pattern: a lowercase
ASCII letter or a digit. -/
def isTagChar (c : Char) : Bool := c.isLower || c.isDigit

/-- The tag pattern of the repository test suite
(tests/content-validation.test.js, tag format validation): an executable
form of the regular expression anchored [a-z0-9]+(-[a-z0-9]+)* , i.e.
nonempty lowercase alphanumeric groups separated by single hyphens. -/
def tagPattern (s : String) : Bool :=
  (splitOnDash s.toList).all (fun g => !g.isEmpty && g.all isTagChar)

/-- The tag format check of the repository test suite: every tag of every
post must match the pattern. -/
def tagsTestCheck (posts : List PostData) : Bool :=
  posts.all (fun p => p.tags.all tagPattern)

/- == Concrete sample posts, used by counterexamples and witnesses == -/

/-- A sample post in the ml space, dated 2024-01-01. -/
def postML : PostData := ⟨"Intro to ML", "desc", jsNewDate "2024-01-01", ["x"], "ml"⟩

/-- A sample post in the web space, dated 2024-02-01. -/
def postWeb : PostData := ⟨"Web Post", "desc", jsNewDate "2024-02-01", ["x", "y"], "web"⟩

/-- A sample post whose space is not a catalog id. -/
def postUnknown : PostData := ⟨"Stray", "desc", jsNewDate "2024-03-01", ["x"], "unknown"⟩

/-- The post loaded from fmNoDate: its date string is unparseable, so its
date is an Invalid Date value. -/
def postBadDate : PostData := ⟨"T", "D", jsNewDate "not-a-date", [], "blog"⟩

/-- Frontmatter with title and description, an unparseable date string,
and no tags and no space keys. -/
def fmNoDate : RawFrontmatter :=
  ⟨some (.vStr "T"), some (.vStr "D"), some (.vStr "not-a-date"), none, none⟩

/-- Frontmatter whose space is the string unknown, not a catalog id. -/
def fmUnknownSpace : RawFrontmatter :=
  ⟨some (.vStr "Stray"), some (.vStr "desc"), some (.vStr "2024-03-01"),
   some (.vArr [.vStr "x"]), some (.vStr "unknown")⟩

/-- Frontmatter with an uppercase tag, violating the tag pattern. -/
def fmUppercaseTag : RawFrontmatter :=
  ⟨some (.vStr "T"), some (.vStr "D"), some (.vStr "2024-01-01"),
   some (.vArr [.vStr "Machine-Learning"]), none⟩

/-- The post parsed from fmUppercaseTag. -/
def pdUppercaseTag : PostData :=
  ⟨"T", "D", jsNewDate "2024-01-01", ["Machine-Learning"], "blog"⟩

/- == Helper lemmas == -/

theorem collectPosts_eq (gs : List (Except CollectionError (List PostData))) :
    collectPosts gs = (gs.filterMap Except.toOption).flatten := by
  induction gs with
  | nil => rfl
  | cons g rest ih =>
    cases g with
    | ok ps => simp [collectPosts, Except.toOption, ih]
    | error e => simp [collectPosts, Except.toOption, ih]

theorem collectPosts_map_ok (groups : List (List PostData)) :
    collectPosts (groups.map Except.ok) = groups.flatten := by
  induction groups with
  | nil => rfl
  | cons g gs ih => simp [collectPosts, ih]

theorem sortLe_iff_timeDesc (a b : PostData) (ha : a.date.valid = true)
    (hb : b.date.valid = true) : sortLe a b ↔ timeDesc a b := by
  constructor
  · exact fun h => h ha hb
  · exact fun h _ _ => h

theorem orderedInsert_sortLe_eq (a : PostData) (ha : a.date.valid = true) :
    ∀ m : List PostData, (∀ b ∈ m, b.date.valid = true) →
      List.orderedInsert sortLe a m = List.orderedInsert timeDesc a m := by
  intro m
  induction m with
  | nil => intro _; rfl
  | cons b bs ih =>
    intro hm
    have hb : b.date.valid = true := hm b (List.mem_cons_self b bs)
    by_cases h : timeDesc a b
    · have h2 : sortLe a b := (sortLe_iff_timeDesc a b ha hb).mpr h
      simp [List.orderedInsert, h, h2]
    · have h2 : ¬ sortLe a b := fun hs => h ((sortLe_iff_timeDesc a b ha hb).mp hs)
      simp [List.orderedInsert, h, h2,
        ih (fun c hc => hm c (List.mem_cons_of_mem b hc))]

theorem insertionSort_sortLe_eq (l : List PostData)
    (hl : ∀ p ∈ l, p.date.valid = true) :
    List.insertionSort sortLe l = List.insertionSort timeDesc l := by
  induction l with
  | nil => rfl
  | cons a as ih =>
    have has : ∀ p ∈ as, p.date.valid = true :=
      fun p hp => hl p (List.mem_cons_of_mem a hp)
    simp only [List.insertionSort]
    rw [ih has]
    apply orderedInsert_sortLe_eq a (hl a (List.mem_cons_self a as))
    intro b hb
    exact has b ((List.perm_insertionSort timeDesc as).mem_iff.mp hb)

theorem sorted_dateGe_of_valid (l : List PostData) (h : List.Sorted timeDesc l)
    (hv : ∀ p ∈ l, p.date.valid = true) : List.Sorted dateGe l :=
  List.Pairwise.imp_of_mem (fun ha hb hr => ⟨hv _ ha, hv _ hb, hr⟩) h

/- == C1: getAllPosts is sorted non-increasing by date and contains
exactly the posts of all groups == -/

/-- C1 counterexample: a corpus holding a loadable post with an
unparseable date string (its date is an Invalid Date, getTime() is NaN) is
not returned sorted non-increasing by date: the comparator ties on NaN, so
no ordering of the result makes every adjacent date comparison hold, and
the concrete result of getAllPosts is indeed not sorted under the
JavaScript date comparison dateGe. -/
theorem getAllPosts_unsorted_cex :
    blogCollection fmNoDate = Except.ok postBadDate
    ∧ ¬ List.Sorted dateGe (getAllPosts [Except.ok [postBadDate, postWeb]]) := by
  exact ⟨rfl, by decide⟩

/-- C1 amended: for every corpus in which every content group loads and
every post's date string parsed to a valid date, getAllPosts returns a
permutation of the concatenation of all the groups (it contains exactly
their posts), sorted non-increasing by date: for every post P before a
post Q in the result, P.date >= Q.date in the JavaScript date comparison.
Without the validity proviso the comparator returns NaN (a tie) against an
Invalid Date and sortedness is not guaranteed. -/
theorem getAllPosts_sorted_and_complete (groups : List (List PostData))
    (hvalid : ∀ p ∈ groups.flatten, p.date.valid = true) :
    List.Sorted dateGe (getAllPosts (groups.map Except.ok))
    ∧ (getAllPosts (groups.map Except.ok)).Perm groups.flatten := by
  have h2 : collectPosts (groups.map Except.ok) = groups.flatten :=
    collectPosts_map_ok groups
  have hc : ∀ p ∈ collectPosts (groups.map Except.ok), p.date.valid = true := by
    rw [h2]; exact hvalid
  constructor
  · apply sorted_dateGe_of_valid
    · unfold getAllPosts
      rw [insertionSort_sortLe_eq _ hc]
      exact List.sorted_insertionSort timeDesc _
    · intro p hp
      exact hc p ((List.perm_insertionSort sortLe _).mem_iff.mp hp)
  · unfold getAllPosts
    rw [h2] at hc ⊢
    exact List.perm_insertionSort sortLe _

/-- Witness for C1: the amended theorem applied to a concrete two-group
corpus whose dates are valid. -/
theorem getAllPosts_sorted_and_complete_w :
    List.Sorted dateGe (getAllPosts ([[postML], [postWeb]].map Except.ok))
    ∧ (getAllPosts ([[postML], [postWeb]].map Except.ok)).Perm
        ([[postML], [postWeb]] : List (List PostData)).flatten :=
  getAllPosts_sorted_and_complete [[postML], [postWeb]] (by decide)

/- == C5: a failing content group does not abort getAllPosts == -/

/-- C5 counterexample: with the middle content group failing to load,
getAllPosts does not fail; it returns exactly the posts of the two groups
that loaded successfully (a partial result), sorted by date. -/
theorem getAllPosts_partial_result_cex :
    getAllPosts [Except.ok [postML], Except.error CollectionError.missing, Except.ok [postWeb]]
      = [postWeb, postML] := by decide

/-- C5 amended: getAllPosts never aborts on a failing content group; the
try/catch skips every group whose load throws, and the result is a
permutation of the posts of the successfully loaded groups — sorted
non-increasing by date whenever those posts all carry valid dates (with an
Invalid Date in the corpus the comparator ties on NaN and guarantees no
order). -/
theorem getAllPosts_skips_failed_groups
    (groups : List (Except CollectionError (List PostData))) :
    (getAllPosts groups).Perm ((groups.filterMap Except.toOption).flatten)
    ∧ ((∀ p ∈ (groups.filterMap Except.toOption).flatten, p.date.valid = true) →
        List.Sorted dateGe (getAllPosts groups)) := by
  constructor
  · unfold getAllPosts
    rw [collectPosts_eq]
    exact List.perm_insertionSort sortLe _
  · intro hvalid
    have hc : ∀ p ∈ collectPosts groups, p.date.valid = true := by
      rw [collectPosts_eq]; exact hvalid
    apply sorted_dateGe_of_valid
    · unfold getAllPosts
      rw [insertionSort_sortLe_eq _ hc]
      exact List.sorted_insertionSort timeDesc _
    · intro p hp
      exact hc p ((List.perm_insertionSort sortLe _).mem_iff.mp hp)

/-- Witness for C5: the amended theorem applied to the concrete corpus of
the counterexample, whose loaded posts all have valid dates, discharging
the validity hypothesis. -/
theorem getAllPosts_skips_failed_groups_w :
    List.Sorted dateGe
      (getAllPosts [Except.ok [postML], Except.error CollectionError.missing,
        Except.ok [postWeb]]) :=
  (getAllPosts_skips_failed_groups
    [Except.ok [postML], Except.error CollectionError.missing, Except.ok [postWeb]]).2
    (by decide)

/- == C7: getPostsByTag keeps exactly the posts containing the tag == -/

/-- C7: getPostsByTag returns a sublist of the input (preserving relative
order), and a post is in the result exactly when it is in the input and
its tags contain the tag under exact string match. -/
theorem getPostsByTag_spec (posts : List PostData) (tag : String) :
    (getPostsByTag posts tag).Sublist posts
    ∧ ∀ p, p ∈ getPostsByTag posts tag ↔ p ∈ posts ∧ tag ∈ p.tags := by
  refine ⟨List.filter_sublist posts, fun p => ?_⟩
  simp [getPostsByTag, List.mem_filter]

/- == C9: getLatestPosts takes a prefix == -/

/-- C9: getLatestPosts returns the first min(limit, length) posts of the
input: its length is min limit posts.length, it is a prefix of the input
(appending the dropped tail gives the input back, so relative order is
preserved and nothing is re-sorted), any limit of the form length + k
returns the whole input, and the default limit is 5. -/
theorem getLatestPosts_spec (posts : List PostData) (limit k : Nat) :
    (getLatestPosts posts limit).length = min limit posts.length
    ∧ getLatestPosts posts limit ++ posts.drop limit = posts
    ∧ getLatestPosts posts (posts.length + k) = posts
    ∧ getLatestPostsDefault posts = getLatestPosts posts 5 := by
  refine ⟨?_, List.take_append_drop limit posts, List.take_of_length_le (by omega), rfl⟩
  simp [getLatestPosts]

/- == C10: getSpaceTitle is total == -/

/-- C10: getSpaceTitle maps each of the five known space ids to its fixed
display title, and returns every other string unchanged. -/
theorem getSpaceTitle_spec (s : String)
    (h : s ∉ ["ml", "transformers", "web", "notes", "blog"]) :
    getSpaceTitle "ml" = "Machine Learning"
    ∧ getSpaceTitle "transformers" = "Transformers"
    ∧ getSpaceTitle "web" = "Web Development"
    ∧ getSpaceTitle "notes" = "General Notes"
    ∧ getSpaceTitle "blog" = "Blog"
    ∧ getSpaceTitle s = s := by
  refine ⟨rfl, rfl, rfl, rfl, rfl, ?_⟩
  simp only [List.mem_cons, List.not_mem_nil, or_false, not_or] at h
  obtain ⟨h1, h2, h3, h4, h5⟩ := h
  simp [getSpaceTitle, spaceTitles, List.lookup, beq_eq_false_iff_ne.mpr h1,
    beq_eq_false_iff_ne.mpr h2, beq_eq_false_iff_ne.mpr h3, beq_eq_false_iff_ne.mpr h4,
    beq_eq_false_iff_ne.mpr h5]

/-- Witness for C10: applying the theorem at the string docs, which is not
one of the five space ids. -/
theorem getSpaceTitle_spec_w :
    getSpaceTitle "ml" = "Machine Learning"
    ∧ getSpaceTitle "transformers" = "Transformers"
    ∧ getSpaceTitle "web" = "Web Development"
    ∧ getSpaceTitle "notes" = "General Notes"
    ∧ getSpaceTitle "blog" = "Blog"
    ∧ getSpaceTitle "docs" = "docs" :=
  getSpaceTitle_spec "docs" (by decide)

/- == C8: getAllTags collects the distinct tags, sorted ascending == -/

theorem mem_addTag (acc : List String) (x t : String) :
    t ∈ addTag acc x ↔ t ∈ acc ∨ t = x := by
  by_cases hx : x ∈ acc
  · simp only [addTag, if_pos hx]
    constructor
    · exact Or.inl
    · rintro (h | rfl)
      · exact h
      · exact hx
  · simp [addTag, if_neg hx]

theorem nodup_addTag (acc : List String) (x : String) (h : acc.Nodup) :
    (addTag acc x).Nodup := by
  by_cases hx : x ∈ acc
  · simpa [addTag, if_pos hx] using h
  · simp [addTag, if_neg hx, List.nodup_append, h, hx]

theorem mem_foldl_addTag (ts : List String) :
    ∀ (acc : List String) (t : String), t ∈ ts.foldl addTag acc ↔ t ∈ acc ∨ t ∈ ts := by
  induction ts with
  | nil => simp
  | cons x ts ih =>
    intro acc t
    rw [List.foldl_cons, ih, mem_addTag]
    simp [or_assoc]

theorem nodup_foldl_addTag (ts : List String) :
    ∀ acc : List String, acc.Nodup → (ts.foldl addTag acc).Nodup := by
  induction ts with
  | nil => exact fun _ h => h
  | cons x ts ih =>
    intro acc h
    exact ih _ (nodup_addTag acc x h)

theorem mem_collect_aux (posts : List PostData) :
    ∀ (acc : List String) (t : String),
      t ∈ posts.foldl (fun acc p => p.tags.foldl addTag acc) acc
        ↔ t ∈ acc ∨ ∃ p ∈ posts, t ∈ p.tags := by
  induction posts with
  | nil => simp
  | cons p ps ih =>
    intro acc t
    rw [List.foldl_cons, ih, mem_foldl_addTag]
    simp [or_assoc]

theorem nodup_collect_aux (posts : List PostData) :
    ∀ acc : List String, acc.Nodup →
      (posts.foldl (fun acc p => p.tags.foldl addTag acc) acc).Nodup := by
  induction posts with
  | nil => exact fun _ h => h
  | cons p ps ih =>
    intro acc h
    exact ih _ (nodup_foldl_addTag p.tags acc h)

/-- C8: getAllTags returns the distinct tags appearing across the posts,
with no duplicates, sorted ascending in the lexicographic string order
strAsc: a string is in the result exactly when it is a tag of some post. -/
theorem getAllTags_spec (posts : List PostData) :
    (getAllTags posts).Nodup
    ∧ List.Sorted strAsc (getAllTags posts)
    ∧ ∀ t, t ∈ getAllTags posts ↔ ∃ p ∈ posts, t ∈ p.tags := by
  have hperm := List.perm_insertionSort strAsc (collectTagList posts)
  refine ⟨hperm.symm.nodup ?_, List.sorted_insertionSort strAsc _, fun t => ?_⟩
  · exact nodup_collect_aux posts [] List.nodup_nil
  · refine (hperm.mem_iff).trans ?_
    rw [collectTagList, mem_collect_aux]
    simp

/- == C6: getPostsBySpace filters by space; partition over the catalog == -/

theorem getPostsBySpace_cons_eq (p : PostData) (ps : List PostData) (t : String)
    (h : p.space = t) :
    getPostsBySpace (p :: ps) t = p :: getPostsBySpace ps t := by
  simp [getPostsBySpace, List.filter_cons, h]

theorem getPostsBySpace_cons_ne (p : PostData) (ps : List PostData) (t : String)
    (h : p.space ≠ t) :
    getPostsBySpace (p :: ps) t = getPostsBySpace ps t := by
  simp [getPostsBySpace, List.filter_cons, h]

theorem flatten_map_cons_perm (p : PostData) (ps : List PostData) :
    ∀ ids : List String, p.space ∈ ids → ids.Nodup →
      ((ids.map (fun t => getPostsBySpace (p :: ps) t)).flatten).Perm
        (p :: (ids.map (fun t => getPostsBySpace ps t)).flatten) := by
  intro ids
  induction ids with
  | nil => intro hmem _; simp at hmem
  | cons t rest ih =>
    intro hmem hnd
    obtain ⟨hnotin, hndr⟩ := List.nodup_cons.mp hnd
    by_cases hpt : p.space = t
    · have hrest : rest.map (fun u => getPostsBySpace (p :: ps) u)
          = rest.map (fun u => getPostsBySpace ps u) := by
        apply List.map_congr_left
        intro u hu
        apply getPostsBySpace_cons_ne
        intro he
        apply hnotin
        have htu : t = u := hpt.symm.trans he
        rw [htu]
        exact hu
      have heq : ((t :: rest).map (fun u => getPostsBySpace (p :: ps) u)).flatten
          = p :: ((t :: rest).map (fun u => getPostsBySpace ps u)).flatten := by
        simp [getPostsBySpace_cons_eq p ps t hpt, hrest]
      rw [heq]
    · have hmem2 : p.space ∈ rest := by
        rcases List.mem_cons.mp hmem with h | h
        · exact absurd h hpt
        · exact h
      have ihr := ih hmem2 hndr
      have heq1 : ((t :: rest).map (fun u => getPostsBySpace (p :: ps) u)).flatten
          = getPostsBySpace ps t ++ (rest.map (fun u => getPostsBySpace (p :: ps) u)).flatten := by
        simp [getPostsBySpace_cons_ne p ps t hpt]
      have heq2 : ((t :: rest).map (fun u => getPostsBySpace ps u)).flatten
          = getPostsBySpace ps t ++ (rest.map (fun u => getPostsBySpace ps u)).flatten := by
        simp
      rw [heq1, heq2]
      exact (List.Perm.append_left _ ihr).trans List.perm_middle

theorem partition_perm (ids : List String) (hnd : ids.Nodup) :
    ∀ posts : List PostData, (∀ p ∈ posts, p.space ∈ ids) →
      ((ids.map (fun t => getPostsBySpace posts t)).flatten).Perm posts := by
  intro posts
  induction posts with
  | nil => intro _; simp [getPostsBySpace]
  | cons p ps ih =>
    intro hall
    have h1 := flatten_map_cons_perm p ps ids (hall p (by simp)) hnd
    have h2 := ih (fun q hq => hall q (by simp [hq]))
    exact h1.trans (h2.cons p)

/-- C6 counterexample: a post whose space is not a catalog id is lost by
the union: taking getPostsBySpace for every valid space id over the
one-post corpus and flattening yields the empty list, not the corpus. -/
theorem getPostsBySpace_partition_cex :
    (validSpaceIds.map (fun t => getPostsBySpace [postUnknown] t)).flatten
      = ([] : List PostData)
    ∧ postUnknown ∈ [postUnknown] := by
  exact ⟨by decide, by decide⟩

/-- C6 amended: getPostsBySpace returns a sublist of the input (preserving
relative order) whose members are exactly the input posts with the given
space; and provided every post of the corpus has a space among the valid
space ids, the union of the per-space results over all valid ids is a
permutation of the corpus (the partition property, which fails for posts
with an unknown space, as the schema admits them). -/
theorem getPostsBySpace_spec (posts : List PostData) (s : String) :
    (getPostsBySpace posts s).Sublist posts
    ∧ (∀ p, p ∈ getPostsBySpace posts s ↔ p ∈ posts ∧ p.space = s)
    ∧ ((∀ p ∈ posts, p.space ∈ validSpaceIds) →
        ((validSpaceIds.map (fun t => getPostsBySpace posts t)).flatten).Perm posts) := by
  refine ⟨List.filter_sublist posts, fun p => ?_,
    fun hall => partition_perm validSpaceIds (by decide) posts hall⟩
  simp [getPostsBySpace, List.mem_filter]

/-- Witness for C6: the partition property applied to a concrete two-post
corpus whose posts have valid spaces. -/
theorem getPostsBySpace_spec_w :
    ((validSpaceIds.map (fun t => getPostsBySpace [postML, postWeb] t)).flatten).Perm
      [postML, postWeb] :=
  (getPostsBySpace_spec [postML, postWeb] "ml").2.2 (by decide)

/- == C2, C3, C4: what the schema checks at load time == -/

theorem isOk_requireString (name : String) (o : Option FmValue) :
    (requireString name o).isOk = isStringField o := by
  cases o with
  | none => rfl
  | some v => cases v <;> rfl

theorem isOk_optionalTags (o : Option FmValue) :
    (optionalTags o).isOk = isOptStringListField o := by
  cases o with
  | none => rfl
  | some v =>
    cases h : asStringList v <;>
      simp [optionalTags, isOptStringListField, h, Except.isOk, Except.toBool]

theorem isOk_optionalSpace (o : Option FmValue) :
    (optionalSpace o).isOk = isOptStringField o := by
  cases o with
  | none => rfl
  | some v =>
    cases h : asString v <;>
      simp [optionalSpace, isOptStringField, h, Except.isOk, Except.toBool]

theorem blogCollection_ok_inv (fm : RawFrontmatter) (pd : PostData)
    (h : blogCollection fm = Except.ok pd) :
    requireString "title" fm.title = Except.ok pd.title
    ∧ requireString "description" fm.description = Except.ok pd.description
    ∧ (∃ ds, requireString "date" fm.date = Except.ok ds ∧ pd.date = jsNewDate ds)
    ∧ optionalTags fm.tags = Except.ok pd.tags
    ∧ optionalSpace fm.space = Except.ok pd.space := by
  unfold blogCollection at h
  cases h1 : requireString "title" fm.title with
  | error e => rw [h1] at h; simp at h
  | ok t1 =>
    rw [h1] at h
    cases h2 : requireString "description" fm.description with
    | error e => rw [h2] at h; simp at h
    | ok t2 =>
      rw [h2] at h
      cases h3 : requireString "date" fm.date with
      | error e => rw [h3] at h; simp at h
      | ok ds =>
        rw [h3] at h
        cases h4 : optionalTags fm.tags with
        | error e => rw [h4] at h; simp at h
        | ok tg =>
          rw [h4] at h
          cases h5 : optionalSpace fm.space with
          | error e => rw [h5] at h; simp at h
          | ok sp =>
            rw [h5] at h
            simp only [Except.ok.injEq] at h
            rw [← h]
            exact ⟨rfl, rfl, ⟨ds, rfl, rfl⟩, rfl, rfl⟩

/-- C2 counterexample: frontmatter whose date string is unparseable and
whose tags and space keys are absent loads successfully: the schema
returns a post with an Invalid Date value, the default empty tags and the
default space, instead of failing with a ContentLoadError. -/
theorem blogCollection_accepts_bad_date_cex :
    blogCollection fmNoDate = Except.ok ⟨"T", "D", jsNewDate "not-a-date", [], "blog"⟩
    ∧ (jsNewDate "not-a-date").valid = false
    ∧ fmNoDate.tags = none
    ∧ fmNoDate.space = none := ⟨rfl, rfl, rfl, rfl⟩

/-- C2 amended: the schema fails exactly when title, description or date
is missing or not a string, or tags is present and not an array of
strings, or space is present and not a string. Missing tags and space take
defaults rather than failing, and the date string is never checked for
parseability. -/
theorem blogCollection_ok_iff (fm : RawFrontmatter) :
    (blogCollection fm).isOk
      = (isStringField fm.title && isStringField fm.description && isStringField fm.date
          && isOptStringListField fm.tags && isOptStringField fm.space) := by
  rw [← isOk_requireString "title" fm.title, ← isOk_requireString "description" fm.description,
    ← isOk_requireString "date" fm.date, ← isOk_optionalTags fm.tags,
    ← isOk_optionalSpace fm.space]
  cases h1 : requireString "title" fm.title <;>
    cases h2 : requireString "description" fm.description <;>
      cases h3 : requireString "date" fm.date <;>
        cases h4 : optionalTags fm.tags <;>
          cases h5 : optionalSpace fm.space <;>
            simp [blogCollection, h1, h2, h3, h4, h5, Except.isOk, Except.toBool]

/-- C3 counterexample: a post whose space is the string unknown, which is
not a catalog id, loads successfully; no InvalidSpaceReferenceError exists
at load time. -/
theorem blogCollection_space_cex :
    blogCollection fmUnknownSpace = Except.ok postUnknown
    ∧ postUnknown.space ∉ validSpaceIds := ⟨rfl, by decide⟩

/-- C3 amended: the loader does not validate space against the catalog:
whatever string the frontmatter carries becomes the space of the loaded
post. The space membership validation lives in the repository test suite
instead, whose check accepts the post exactly when its space is one of the
catalog ids. -/
theorem blogCollection_space_unchecked (fm : RawFrontmatter) (s : String) (pd : PostData)
    (hs : fm.space = some (FmValue.vStr s)) (h : blogCollection fm = Except.ok pd) :
    pd.space = s ∧ (spacesTestCheck [pd] = true ↔ s ∈ validSpaceIds) := by
  obtain ⟨-, -, -, -, hsp⟩ := blogCollection_ok_inv fm pd h
  rw [hs] at hsp
  simp only [optionalSpace, asString, Except.ok.injEq] at hsp
  refine ⟨hsp.symm, ?_⟩
  simp [spacesTestCheck, List.contains, List.elem_iff, hsp.symm]

/-- Witness for C3: applying the theorem to the concrete frontmatter whose
space is the string unknown; the parsed post carries that space and the
test suite check rejects it. -/
theorem blogCollection_space_unchecked_w :
    postUnknown.space = "unknown"
    ∧ (spacesTestCheck [postUnknown] = true ↔ "unknown" ∈ validSpaceIds) :=
  blogCollection_space_unchecked fmUnknownSpace "unknown" postUnknown rfl rfl

theorem asStringList_map_vStr (ts : List String) :
    asStringList (FmValue.vArr (List.map FmValue.vStr ts)) = some ts := by
  induction ts with
  | nil => rfl
  | cons t ts ih =>
    simp only [asStringList] at ih ⊢
    simp [allStrings, asString, ih]

/-- C4 counterexample: a post with the tag Machine-Learning, which fails
the lowercase tag pattern, loads successfully; no InvalidTagFormatError
exists at load time. The test suite check is what rejects it. -/
theorem blogCollection_tags_cex :
    blogCollection fmUppercaseTag = Except.ok pdUppercaseTag
    ∧ tagPattern "Machine-Learning" = false
    ∧ tagsTestCheck [pdUppercaseTag] = false := ⟨rfl, by decide, by decide⟩

/-- C4 amended: the loader does not validate tag format: any array of
strings becomes the tags of the loaded post unchanged (uppercase, empty or
duplicated tags included), so no InvalidTagFormatError exists at load
time. Tag validation lives in the repository test suite instead: its
format check accepts the post exactly when every one of its tags matches
the pattern (rejecting uppercase and empty tags), and a separate test of
the suite rejects duplicated tags. -/
theorem blogCollection_tags_unchecked (fm : RawFrontmatter) (ts : List String) (pd : PostData)
    (ht : fm.tags = some (FmValue.vArr (List.map FmValue.vStr ts)))
    (h : blogCollection fm = Except.ok pd) :
    pd.tags = ts ∧ (tagsTestCheck [pd] = true ↔ ∀ t ∈ ts, tagPattern t = true) := by
  obtain ⟨-, -, -, htg, -⟩ := blogCollection_ok_inv fm pd h
  rw [ht] at htg
  simp only [optionalTags, asStringList_map_vStr, Except.ok.injEq] at htg
  refine ⟨htg.symm, ?_⟩
  simp [tagsTestCheck, List.all_eq_true, htg.symm]

/-- Witness for C4: applying the theorem to the concrete frontmatter with
the uppercase tag; the parsed post carries the tag unchanged. -/
theorem blogCollection_tags_unchecked_w :
    pdUppercaseTag.tags = ["Machine-Learning"]
    ∧ (tagsTestCheck [pdUppercaseTag] = true
        ↔ ∀ t ∈ ["Machine-Learning"], tagPattern t = true) :=
  blogCollection_tags_unchecked fmUppercaseTag ["Machine-Learning"] pdUppercaseTag rfl rfl

end Confero
